import Mathlib

/-!
Shallow embedding of the core decision/market code of the `nofx` repository
(`src/market/data.go`, `src/decision/engine.go`), with theorems checking the
natural-language specification against it.  Go `float64` arithmetic is
modelled by `ℚ`, Go `int` by `Int`/`Nat`, Go strings by `List Char`
(every character the algorithms branch on is a single-byte ASCII rune,
so byte indexing and rune indexing agree on those characters).
-/

/-! ## Market data model (`src/market/data.go`) -/

/-- One candle (Go `market.Kline`); the indicator code reads `High`, `Low`,
`Close` (declaration lives outside the extracted sources, fields are the
ones the `src/` code accesses). -/
structure Kline where
  high : ℚ
  low : ℚ
  close : ℚ
  volume : ℚ
deriving Repr, DecidableEq

/-- Open-interest data (Go `market.OIData`): fields `Latest`, `Average`. -/
structure OIData where
  Latest : ℚ
  Average : ℚ
deriving Repr, DecidableEq

/-- The slice of Go `market.Data` that the liquidity gate in
`fetchMarketDataForContext` reads: `CurrentPrice` and `OpenInterest`
(a nil-able pointer, modelled with `Option`). -/
structure MarketData where
  CurrentPrice : ℚ
  OpenInterest : Option OIData
deriving Repr, DecidableEq

/-- Function `calculateEMA` (data.go:88-107): returns 0 when there are fewer than
`period` candles, otherwise seeds with the simple moving average of the
first `period` closes and folds
`ema = (close - ema) * (2/(period+1)) + ema` over the remaining closes. -/
def calculateEMA (klines : List Kline) (period : Nat) : ℚ :=
  if klines.length < period then 0
  else
    let sum := ((klines.take period).map Kline.close).sum
    let ema := sum / (period : ℚ)
    let multiplier : ℚ := 2 / ((period : ℚ) + 1)
    (klines.drop period).foldl (fun ema k => (k.close - ema) * multiplier + ema) ema

/-- Consecutive close-to-close changes (`klines[i].Close - klines[i-1].Close`),
oldest first; used by `calculateRSI`. -/
def closeChanges (klines : List Kline) : List ℚ :=
  List.zipWith (fun cur prev => cur.close - prev.close) klines.tail klines

/-- The seed accumulation of `calculateRSI` (data.go:129-140): total gains and
losses over the first `period` changes. -/
def initialGainsLosses (changes : List ℚ) : ℚ × ℚ :=
  changes.foldl (fun p c => if c > 0 then (p.1 + c, p.2) else (p.1, p.2 + (-c))) (0, 0)

/-- One step of Wilder smoothing (data.go:146-155). -/
def wilderStep (period : Nat) (p : ℚ × ℚ) (c : ℚ) : ℚ × ℚ :=
  if c > 0 then
    ((p.1 * ((period - 1 : Nat) : ℚ) + c) / (period : ℚ), (p.2 * ((period - 1 : Nat) : ℚ)) / (period : ℚ))
  else
    ((p.1 * ((period - 1 : Nat) : ℚ)) / (period : ℚ), (p.2 * ((period - 1 : Nat) : ℚ) + (-c)) / (period : ℚ))

/-- The final `(avgGain, avgLoss)` pair computed by `calculateRSI`
(data.go:129-155): seed averages over the first `period` changes, then
Wilder smoothing over the remaining changes. -/
def wilderAvgs (klines : List Kline) (period : Nat) : ℚ × ℚ :=
  let changes := closeChanges klines
  let gl := initialGainsLosses (changes.take period)
  (changes.drop period).foldl (wilderStep period) (gl.1 / (period : ℚ), gl.2 / (period : ℚ))

/-- Function `calculateRSI` (data.go:124-165). -/
def calculateRSI (klines : List Kline) (period : Nat) : ℚ :=
  if klines.length ≤ period then 0
  else
    let avg := wilderAvgs klines period
    if avg.2 = 0 then 100
    else
      let rs := avg.1 / avg.2
      100 - (100 / (1 + rs))

/-- The Fibonacci ratio table of `calculateFibonacciLevels` (data.go:509-516). -/
def fibRatios : List (String × ℚ) :=
  [("23.6", 236/1000), ("38.2", 382/1000), ("50.0", 500/1000),
   ("61.8", 618/1000), ("70.5", 705/1000), ("78.6", 786/1000)]

/-- Function `calculateFibonacciLevels` (data.go:499-523): empty when
`swingHigh ≤ swingLow`, otherwise one level `swingHigh - diff * ratio`
per table entry (the Go map is modelled as an association list). -/
def calculateFibonacciLevels (swingHigh swingLow : ℚ) : List (String × ℚ) :=
  if swingHigh ≤ swingLow then []
  else
    let diff := swingHigh - swingLow
    fibRatios.map (fun pr => (pr.1, swingHigh - diff * pr.2))

/-- Lookup of one retracement level in the result map. -/
def fibLevel (swingHigh swingLow : ℚ) (key : String) : Option ℚ :=
  ((calculateFibonacciLevels swingHigh swingLow).find? (fun pr => pr.1 = key)).map Prod.snd

/-! ## Decision model and validator (`src/decision/engine.go`) -/

/-- Go `decision.Decision` (engine.go:72-82). -/
structure Decision where
  Symbol : String
  Action : String
  Leverage : Int
  PositionSizeUSD : ℚ
  StopLoss : ℚ
  TakeProfit : ℚ
  Confidence : Int
  RiskUSD : ℚ
  Reasoning : String
deriving Repr, DecidableEq

/-- The zero value of `Decision` (what `json.Unmarshal` starts from). -/
def Decision.zero : Decision :=
  { Symbol := "", Action := "", Leverage := 0, PositionSizeUSD := 0,
    StopLoss := 0, TakeProfit := 0, Confidence := 0, RiskUSD := 0, Reasoning := "" }

/-- The `validActions` set of `validateDecision` (engine.go:724-731). -/
def validActions : List String :=
  ["open_long", "open_short", "close_long", "close_short", "hold", "wait"]

/-- One constructor per `fmt.Errorf` return site of `validateDecision`
(engine.go:722-811), carrying the data the Go error message interpolates. -/
inductive ValidationError where
  | invalidAction (action : String)
  | invalidLeverage (maxLeverage : Int) (symbol : String) (leverage : Int)
  | nonPositivePositionSize (size : ℚ)
  | positionSizeTooLarge (isMajor : Bool) (maxValue actual : ℚ)
  | nonPositiveStops
  | longStopNotBelowTakeProfit
  | shortStopNotAboveTakeProfit
  | riskRewardTooLow (ratio riskPercent rewardPercent stopLoss takeProfit : ℚ)
deriving Repr, DecidableEq

/-- The `isMajor` test of `validateDecision` (engine.go:742): BTC and ETH
form the distinguished symbol class. -/
def isMajor (d : Decision) : Bool := d.Symbol = "BTCUSDT" ∨ d.Symbol = "ETHUSDT"

/-- The local `maxLeverage` of `validateDecision` (engine.go:740-744). -/
def maxLeverageOf (d : Decision) (btcEthLeverage altcoinLeverage : Int) : Int :=
  if isMajor d then btcEthLeverage else altcoinLeverage

/-- The local `maxPositionValue` of `validateDecision` (engine.go:741-744). -/
def maxPositionValueOf (d : Decision) (accountEquity : ℚ) : ℚ :=
  if isMajor d then accountEquity * 10 else accountEquity * (15/10)

/-- The local `entryPrice` of `validateDecision` (engine.go:779-786): the
synthetic entry assumed 20% of the way from stop-loss toward take-profit. -/
def entryPriceOf (d : Decision) : ℚ :=
  if d.Action = "open_long" then d.StopLoss + (d.TakeProfit - d.StopLoss) * (2/10)
  else d.StopLoss - (d.StopLoss - d.TakeProfit) * (2/10)

/-- The local `riskPercent` of `validateDecision` (engine.go:788-800). -/
def riskPercentOf (d : Decision) : ℚ :=
  if d.Action = "open_long" then (entryPriceOf d - d.StopLoss) / entryPriceOf d * 100
  else (d.StopLoss - entryPriceOf d) / entryPriceOf d * 100

/-- The local `rewardPercent` of `validateDecision` (engine.go:788-800). -/
def rewardPercentOf (d : Decision) : ℚ :=
  if d.Action = "open_long" then (d.TakeProfit - entryPriceOf d) / entryPriceOf d * 100
  else (entryPriceOf d - d.TakeProfit) / entryPriceOf d * 100

/-- The local `riskRewardRatio` of `validateDecision` (engine.go:788-801):
0 unless `riskPercent` is positive. -/
def riskRewardRatioOf (d : Decision) : ℚ :=
  if riskPercentOf d > 0 then rewardPercentOf d / riskPercentOf d else 0

/-- Function `validateDecision` (engine.go:722-811). -/
def validateDecision (d : Decision) (accountEquity : ℚ)
    (btcEthLeverage altcoinLeverage : Int) : Except ValidationError Unit :=
  if ¬ validActions.contains d.Action then
    .error (.invalidAction d.Action)
  else if d.Action = "open_long" ∨ d.Action = "open_short" then
    if d.Leverage ≤ 0 ∨ d.Leverage > maxLeverageOf d btcEthLeverage altcoinLeverage then
      .error (.invalidLeverage (maxLeverageOf d btcEthLeverage altcoinLeverage) d.Symbol d.Leverage)
    else if d.PositionSizeUSD ≤ 0 then
      .error (.nonPositivePositionSize d.PositionSizeUSD)
    else if d.PositionSizeUSD >
        maxPositionValueOf d accountEquity + maxPositionValueOf d accountEquity * (1/100) then
      .error (.positionSizeTooLarge (isMajor d) (maxPositionValueOf d accountEquity) d.PositionSizeUSD)
    else if d.StopLoss ≤ 0 ∨ d.TakeProfit ≤ 0 then
      .error .nonPositiveStops
    else if d.Action = "open_long" ∧ d.StopLoss ≥ d.TakeProfit then
      .error .longStopNotBelowTakeProfit
    else if d.Action ≠ "open_long" ∧ d.StopLoss ≤ d.TakeProfit then
      .error .shortStopNotAboveTakeProfit
    else if riskRewardRatioOf d < 3 then
      .error (.riskRewardTooLow (riskRewardRatioOf d) (riskPercentOf d) (rewardPercentOf d)
        d.StopLoss d.TakeProfit)
    else
      .ok ()
  else
    .ok ()

/-- The index-tracking loop of `validateDecisions` (engine.go:689-697);
the error carries the 1-based index `i+1` the Go message interpolates. -/
def validateDecisionsFrom (decisions : List Decision) (i : Nat) (accountEquity : ℚ)
    (btcEthLeverage altcoinLeverage : Int) : Except (Nat × ValidationError) Unit :=
  match decisions with
  | [] => .ok ()
  | d :: rest =>
    match validateDecision d accountEquity btcEthLeverage altcoinLeverage with
    | .error e => .error (i + 1, e)
    | .ok _ => validateDecisionsFrom rest (i + 1) accountEquity btcEthLeverage altcoinLeverage

/-- Function `validateDecisions` (engine.go:689-697). -/
def validateDecisions (decisions : List Decision) (accountEquity : ℚ)
    (btcEthLeverage altcoinLeverage : Int) : Except (Nat × ValidationError) Unit :=
  validateDecisionsFrom decisions 0 accountEquity btcEthLeverage altcoinLeverage

/-! ## Liquidity gate of the snapshot builder (`fetchMarketDataForContext`,
engine.go:156-179).  The per-symbol fetch results are passed in as a list of
`(symbol, Option MarketData)` pairs (`none` = the `market.Get` call failed),
and the Go map is modelled as the association list of retained entries. -/

/-- The keep/drop choice the loop body makes for one successfully fetched
symbol (engine.go:166-176): a symbol is dropped exactly when it is not an
existing position, open-interest data is present, the current price is
positive, and the open-interest value in millions is below 15. -/
def liquidityGateKeeps (isExistingPosition : Bool) (data : MarketData) : Bool :=
  if ¬ isExistingPosition ∧ data.OpenInterest.isSome ∧ data.CurrentPrice > 0 then
    match data.OpenInterest with
    | some oi =>
      let oiValue := oi.Latest * data.CurrentPrice
      let oiValueInMillions := oiValue / 1000000
      ¬ (oiValueInMillions < 15)
    | none => true
  else true

/-- The snapshot-building loop of `fetchMarketDataForContext`
(engine.go:156-179): failed fetches are skipped, successful ones pass
through the liquidity gate. -/
def buildSnapshot (fetches : List (String × Option MarketData))
    (positionSymbols : List String) : List (String × MarketData) :=
  match fetches with
  | [] => []
  | (_, none) :: rest => buildSnapshot rest positionSymbols
  | (symbol, some data) :: rest =>
    if liquidityGateKeeps (positionSymbols.contains symbol) data then
      (symbol, data) :: buildSnapshot rest positionSymbols
    else
      buildSnapshot rest positionSymbols

/-! ## Response parsing (`src/decision/engine.go`, lines 607-719)

Go strings are modelled as `List Char`.  The characters the code branches on
(brackets, quotes, whitespace) are one-byte runes, so Go's byte positions
coincide with character positions at every point the code inspects. -/

/-- ASCII double quote. -/
def quoteChar : Char := Char.ofNat 34

/-- ASCII apostrophe. -/
def aposChar : Char := Char.ofNat 39

/-- U+201C left smart double quote. -/
def ldquo : Char := Char.ofNat 8220

/-- U+201D right smart double quote. -/
def rdquo : Char := Char.ofNat 8221

/-- U+2018 left smart single quote. -/
def lsquo : Char := Char.ofNat 8216

/-- U+2019 right smart single quote. -/
def rsquo : Char := Char.ofNat 8217

/-- Opening curly brace. -/
def lbraceChar : Char := Char.ofNat 123

/-- Closing curly brace. -/
def rbraceChar : Char := Char.ofNat 125

/-- Function `strings.Index` for a one-rune pattern: position of the first occurrence,
`none` when absent (Go returns -1). -/
def indexOfChar (s : List Char) (c : Char) : Option Nat :=
  match s with
  | [] => none
  | a :: rest => if a = c then some 0 else (indexOfChar rest c).map (· + 1)

/-- The whitespace class trimmed by `strings.TrimSpace`. -/
def isSpaceChar (c : Char) : Bool :=
  c = ' ' ∨ c = Char.ofNat 9 ∨ c = Char.ofNat 10 ∨ c = Char.ofNat 13 ∨
  c = Char.ofNat 11 ∨ c = Char.ofNat 12

/-- Function `strings.TrimSpace`. -/
def trimSpace (s : List Char) : List Char :=
  ((s.dropWhile isSpaceChar).reverse.dropWhile isSpaceChar).reverse

/-- Function `extractCoTTrace` (engine.go:636-647): the text before the first `[`
(trimmed) when that `[` sits at a strictly positive index, otherwise the
whole response trimmed (the Go guard is `jsonStart > 0`, which lumps index 0
together with "not found"). -/
def extractCoTTrace (response : List Char) : List Char :=
  match indexOfChar response '[' with
  | some jsonStart =>
    if jsonStart > 0 then trimSpace (response.take jsonStart) else trimSpace response
  | none => trimSpace response

/-- The scanning loop of `findMatchingBracket` (engine.go:705-717): `depth`
is incremented at `[`, decremented at `]`, and the current index is returned
when the depth hits 0 at a `]`. -/
def bracketLoop : List Char → Int → Nat → Option Nat
  | [], _, _ => none
  | c :: rest, depth, i =>
    if c = '[' then bracketLoop rest (depth + 1) (i + 1)
    else if c = ']' then
      if depth - 1 = 0 then some i else bracketLoop rest (depth - 1) (i + 1)
    else bracketLoop rest depth (i + 1)

/-- Function `findMatchingBracket` (engine.go:700-719). -/
def findMatchingBracket (s : List Char) (start : Nat) : Option Nat :=
  if s.get? start = some '[' then bracketLoop (s.drop start) 0 start else none

/-- Function `fixMissingQuotes` (engine.go:680-687): four `strings.ReplaceAll` calls,
each replacing a one-rune smart quote with its ASCII counterpart. -/
def replaceAllChar (s : List Char) (oldC newC : Char) : List Char :=
  s.map (fun c => if c = oldC then newC else c)

/-- Function `fixMissingQuotes` (engine.go:680-687). -/
def fixMissingQuotes (jsonStr : List Char) : List Char :=
  let s1 := replaceAllChar jsonStr ldquo quoteChar
  let s2 := replaceAllChar s1 rdquo quoteChar
  let s3 := replaceAllChar s2 lsquo aposChar
  replaceAllChar s3 rsquo aposChar

/-! ### Model of `encoding/json.Unmarshal` into `[]Decision`

The repository calls the Go standard library here; the model below is a
JSON value grammar (RFC 8259) plus the stdlib's decoding rules for the
`Decision` record: fields are matched by their JSON tag, unknown fields are
ignored, `null` leaves a field untouched, string fields require a JSON
string, `float64` fields any JSON number, `int` fields an integral JSON
number. -/

/-- JSON values. -/
inductive Jval where
  | jnull
  | jbool (b : Bool)
  | jnum (q : ℚ)
  | jstr (s : List Char)
  | jarr (elems : List Jval)
  | jobj (fields : List (List Char × Jval))
deriving Repr

/-- JSON structural whitespace. -/
def isJsonSpace (c : Char) : Bool :=
  c = ' ' ∨ c = Char.ofNat 9 ∨ c = Char.ofNat 10 ∨ c = Char.ofNat 13

/-- Skip JSON structural whitespace. -/
def skipWs (s : List Char) : List Char := s.dropWhile isJsonSpace

/-- Hexadecimal digit value. -/
def hexVal (c : Char) : Option Nat :=
  if '0' ≤ c ∧ c ≤ '9' then some (c.toNat - 48)
  else if 'a' ≤ c ∧ c ≤ 'f' then some (c.toNat - 87)
  else if 'A' ≤ c ∧ c ≤ 'F' then some (c.toNat - 55)
  else none

/-- Body of a JSON string after the opening quote: returns the decoded
content and the remainder after the closing quote. -/
def strBody : List Char → Option (List Char × List Char)
  | [] => none
  | c :: rest =>
    if c = quoteChar then some ([], rest)
    else if c = '\\' then
      match rest with
      | [] => none
      | e :: rest2 =>
        if e = quoteChar then (strBody rest2).map (fun p => (quoteChar :: p.1, p.2))
        else if e = '\\' then (strBody rest2).map (fun p => ('\\' :: p.1, p.2))
        else if e = '/' then (strBody rest2).map (fun p => ('/' :: p.1, p.2))
        else if e = 'b' then (strBody rest2).map (fun p => (Char.ofNat 8 :: p.1, p.2))
        else if e = 'f' then (strBody rest2).map (fun p => (Char.ofNat 12 :: p.1, p.2))
        else if e = 'n' then (strBody rest2).map (fun p => (Char.ofNat 10 :: p.1, p.2))
        else if e = 'r' then (strBody rest2).map (fun p => (Char.ofNat 13 :: p.1, p.2))
        else if e = 't' then (strBody rest2).map (fun p => (Char.ofNat 9 :: p.1, p.2))
        else if e = 'u' then
          match rest2 with
          | h1 :: h2 :: h3 :: h4 :: rest3 =>
            match hexVal h1, hexVal h2, hexVal h3, hexVal h4 with
            | some v1, some v2, some v3, some v4 =>
              (strBody rest3).map
                (fun p => (Char.ofNat (((v1 * 16 + v2) * 16 + v3) * 16 + v4) :: p.1, p.2))
            | _, _, _, _ => none
          | _ => none
        else none
    else if c.toNat < 32 then none
    else (strBody rest).map (fun p => (c :: p.1, p.2))

/-- Decimal digit test. -/
def isDigitChar (c : Char) : Bool := '0' ≤ c ∧ c ≤ '9'

/-- Decimal digits to a natural number. -/
def digitsToNat (ds : List Char) : Nat :=
  ds.foldl (fun n c => n * 10 + (c.toNat - 48)) 0

/-- Parse a JSON number into an exact rational and the remaining input. -/
def pNumber (s : List Char) : Option (ℚ × List Char) :=
  let negAndRest : Bool × List Char :=
    match s with
    | c :: rest => if c = '-' then (true, rest) else (false, s)
    | [] => (false, s)
  let neg := negAndRest.1
  let s1 := negAndRest.2
  let intDigits := s1.takeWhile isDigitChar
  let s2 := s1.dropWhile isDigitChar
  if intDigits = [] then none
  else
    let fracAndRest : Option (List Char × List Char) :=
      match s2 with
      | c :: rest =>
        if c = '.' then
          let fd := rest.takeWhile isDigitChar
          if fd = [] then none else some (fd, rest.dropWhile isDigitChar)
        else some ([], s2)
      | [] => some ([], s2)
    match fracAndRest with
    | none => none
    | some (fracDigits, s3) =>
      let expAndRest : Option (Int × List Char) :=
        match s3 with
        | c :: rest =>
          if c = 'e' ∨ c = 'E' then
            match rest with
            | e1 :: rest2 =>
              if e1 = '+' then
                let ed := rest2.takeWhile isDigitChar
                if ed = [] then none
                else some ((digitsToNat ed : Int), rest2.dropWhile isDigitChar)
              else if e1 = '-' then
                let ed := rest2.takeWhile isDigitChar
                if ed = [] then none
                else some (-(digitsToNat ed : Int), rest2.dropWhile isDigitChar)
              else
                let ed := rest.takeWhile isDigitChar
                if ed = [] then none
                else some ((digitsToNat ed : Int), rest.dropWhile isDigitChar)
            | [] => none
          else some (0, s3)
        | [] => some (0, s3)
      match expAndRest with
      | none => none
      | some (expVal, s4) =>
        let mantissa : Int :=
          (if neg then -1 else 1) *
            ((digitsToNat intDigits : Int) * (10 : Int) ^ fracDigits.length +
              (digitsToNat fracDigits : Int))
        let q : ℚ :=
          if fracDigits.length = 0 ∧ expVal = 0 then (mantissa : ℚ)
          else
            let base : ℚ := (mantissa : ℚ) / ((10 : ℚ) ^ fracDigits.length)
            if 0 ≤ expVal then base * (10 : ℚ) ^ expVal.toNat
            else base / (10 : ℚ) ^ (-expVal).toNat
        some (q, s4)

mutual

/-- Parse one JSON value (fuel-indexed recursion). -/
def parseVal : Nat → List Char → Option (Jval × List Char)
  | 0, _ => none
  | Nat.succ fuel, s =>
    match skipWs s with
    | [] => none
    | c :: rest =>
      if c = lbraceChar then
        match skipWs rest with
        | d :: r => if d = rbraceChar then some (Jval.jobj [], r) else parseObjItems fuel rest []
        | [] => none
      else if c = '[' then
        match skipWs rest with
        | d :: r => if d = ']' then some (Jval.jarr [], r) else parseArrItems fuel rest []
        | [] => none
      else if c = quoteChar then (strBody rest).map (fun p => (Jval.jstr p.1, p.2))
      else if c = 'n' then
        match rest with
        | 'u' :: 'l' :: 'l' :: r => some (Jval.jnull, r)
        | _ => none
      else if c = 't' then
        match rest with
        | 'r' :: 'u' :: 'e' :: r => some (Jval.jbool true, r)
        | _ => none
      else if c = 'f' then
        match rest with
        | 'a' :: 'l' :: 's' :: 'e' :: r => some (Jval.jbool false, r)
        | _ => none
      else (pNumber (c :: rest)).map (fun p => (Jval.jnum p.1, p.2))

/-- Parse the comma-separated items of a nonempty JSON array. -/
def parseArrItems : Nat → List Char → List Jval → Option (Jval × List Char)
  | 0, _, _ => none
  | Nat.succ fuel, s, acc =>
    match parseVal fuel s with
    | none => none
    | some (v, r) =>
      match skipWs r with
      | c :: r2 =>
        if c = ',' then parseArrItems fuel r2 (v :: acc)
        else if c = ']' then some (Jval.jarr (v :: acc).reverse, r2)
        else none
      | [] => none

/-- Parse the comma-separated members of a nonempty JSON object. -/
def parseObjItems : Nat → List Char → List (List Char × Jval) →
    Option (Jval × List Char)
  | 0, _, _ => none
  | Nat.succ fuel, s, acc =>
    match skipWs s with
    | c :: r =>
      if c = quoteChar then
        match strBody r with
        | none => none
        | some (key, r2) =>
          match skipWs r2 with
          | d :: r3 =>
            if d = ':' then
              match parseVal fuel r3 with
              | none => none
              | some (v, r4) =>
                match skipWs r4 with
                | e :: r5 =>
                  if e = ',' then parseObjItems fuel r5 ((key, v) :: acc)
                  else if e = rbraceChar then some (Jval.jobj ((key, v) :: acc).reverse, r5)
                  else none
                | [] => none
            else none
          | [] => none
      else none
    | [] => none

end

/-- Decode one object member into the `Decision` under construction,
following Go tag matching: known tags set the corresponding field (with the
stdlib type checks), `null` is a no-op, unknown keys are ignored. -/
def setDecisionField (d : Decision) (key : List Char) (v : Jval) : Option Decision :=
  if key = ("symbol").toList then
    match v with
    | Jval.jstr s => some { d with Symbol := String.mk s }
    | Jval.jnull => some d
    | _ => none
  else if key = ("action").toList then
    match v with
    | Jval.jstr s => some { d with Action := String.mk s }
    | Jval.jnull => some d
    | _ => none
  else if key = ("leverage").toList then
    match v with
    | Jval.jnum q => if q.den = 1 then some { d with Leverage := q.num } else none
    | Jval.jnull => some d
    | _ => none
  else if key = ("position_size_usd").toList then
    match v with
    | Jval.jnum q => some { d with PositionSizeUSD := q }
    | Jval.jnull => some d
    | _ => none
  else if key = ("stop_loss").toList then
    match v with
    | Jval.jnum q => some { d with StopLoss := q }
    | Jval.jnull => some d
    | _ => none
  else if key = ("take_profit").toList then
    match v with
    | Jval.jnum q => some { d with TakeProfit := q }
    | Jval.jnull => some d
    | _ => none
  else if key = ("confidence").toList then
    match v with
    | Jval.jnum q => if q.den = 1 then some { d with Confidence := q.num } else none
    | Jval.jnull => some d
    | _ => none
  else if key = ("risk_usd").toList then
    match v with
    | Jval.jnum q => some { d with RiskUSD := q }
    | Jval.jnull => some d
    | _ => none
  else if key = ("reasoning").toList then
    match v with
    | Jval.jstr s => some { d with Reasoning := String.mk s }
    | Jval.jnull => some d
    | _ => none
  else some d

/-- Decode a JSON object into a `Decision`, starting from the zero value. -/
def decodeDecisionObj (fields : List (List Char × Jval)) : Option Decision :=
  fields.foldl (fun acc kv => acc.bind (fun d => setDecisionField d kv.1 kv.2))
    (some Decision.zero)

/-- Decode one array element into a `Decision` (`null` yields the zero
value, as in the stdlib). -/
def decodeDecision (v : Jval) : Option Decision :=
  match v with
  | Jval.jobj fields => decodeDecisionObj fields
  | Jval.jnull => some Decision.zero
  | _ => none

/-- Model of `json.Unmarshal(data, &decisions)` for `decisions : []Decision`:
the whole input must be one JSON value (plus trailing whitespace), the top
value must be an array (or `null`, which leaves the slice empty), and every
element must decode. -/
def jsonUnmarshalDecisions (s : List Char) : Option (List Decision) :=
  match parseVal (2 * s.length + 4) s with
  | some (Jval.jarr vs, rest) =>
    if skipWs rest = [] then vs.mapM decodeDecision else none
  | some (Jval.jnull, rest) => if skipWs rest = [] then some [] else none
  | _ => none

/-- One constructor per error return of `extractDecisions`
(engine.go:650-678). -/
inductive ExtractError where
  | noArrayStart
  | noArrayEnd
  | jsonParseFailed (jsonContent : List Char)
deriving Repr, DecidableEq

/-- Decidable equality for `Except` results (componentwise). -/
instance instDecEqExcept {ε α : Type} [DecidableEq ε] [DecidableEq α] :
    DecidableEq (Except ε α) := fun x y =>
  match x, y with
  | .error a, .error b =>
    if h : a = b then isTrue (by rw [h]) else isFalse (by simp [h])
  | .ok a, .ok b =>
    if h : a = b then isTrue (by rw [h]) else isFalse (by simp [h])
  | .error _, .ok _ => isFalse (by simp)
  | .ok _, .error _ => isFalse (by simp)

/-- Function `extractDecisions` (engine.go:650-678). -/
def extractDecisions (response : List Char) : Except ExtractError (List Decision) :=
  match indexOfChar response '[' with
  | none => .error .noArrayStart
  | some arrayStart =>
    match findMatchingBracket response arrayStart with
    | none => .error .noArrayEnd
    | some arrayEnd =>
      let jsonContent := trimSpace ((response.drop arrayStart).take (arrayEnd + 1 - arrayStart))
      let fixedContent := fixMissingQuotes jsonContent
      match jsonUnmarshalDecisions fixedContent with
      | none => .error (.jsonParseFailed fixedContent)
      | some decisions => .ok decisions

/-- The fields of Go `decision.FullDecision` that `parseFullDecisionResponse`
itself fills in (prompts and timestamp are set by the caller afterwards). -/
structure FullDecision where
  CoTTrace : List Char
  Decisions : List Decision
deriving Repr, DecidableEq

/-- The two error paths of `parseFullDecisionResponse` (engine.go:607-633). -/
inductive ParseError where
  | extractFailed (e : ExtractError)
  | validationFailed (index : Nat) (e : ValidationError)
deriving Repr, DecidableEq

/-- Function `parseFullDecisionResponse` (engine.go:607-633): Go returns a non-nil
`*FullDecision` together with a possible error, modelled as a pair. -/
def parseFullDecisionResponse (aiResponse : List Char) (accountEquity : ℚ)
    (btcEthLeverage altcoinLeverage : Int) : FullDecision × Option ParseError :=
  let cotTrace := extractCoTTrace aiResponse
  match extractDecisions aiResponse with
  | .error e => ({ CoTTrace := cotTrace, Decisions := [] }, some (.extractFailed e))
  | .ok decisions =>
    match validateDecisions decisions accountEquity btcEthLeverage altcoinLeverage with
    | .error ie => ({ CoTTrace := cotTrace, Decisions := decisions },
        some (.validationFailed ie.1 ie.2))
    | .ok _ => ({ CoTTrace := cotTrace, Decisions := decisions }, none)

/-! ## Statement-level definitions (spec-side formulations and concrete data) -/

/-- The spec's synthetic entry price: interpolated 20% of the way from
stop-loss toward take-profit. -/
def syntheticEntrySpec (stopLoss takeProfit : ℚ) : ℚ :=
  stopLoss + (takeProfit - stopLoss) * (2/10)

/-- The spec's reward/risk estimate off the synthetic entry (percentages
relative to the synthetic entry; 0 when the risk percentage is not
positive). -/
def riskRewardRatioSpec (d : Decision) : ℚ :=
  let entry := syntheticEntrySpec d.StopLoss d.TakeProfit
  let riskPercent :=
    if d.Action = "open_long" then (entry - d.StopLoss) / entry * 100
    else (d.StopLoss - entry) / entry * 100
  let rewardPercent :=
    if d.Action = "open_long" then (d.TakeProfit - entry) / entry * 100
    else (entry - d.TakeProfit) / entry * 100
  if riskPercent > 0 then rewardPercent / riskPercent else 0

/-- The spec's per-character smart-quote normalization: smart double quotes
to the ASCII double quote, smart single quotes to the ASCII apostrophe. -/
def quoteNormalSpec (c : Char) : Char :=
  if c = ldquo ∨ c = rdquo then quoteChar
  else if c = lsquo ∨ c = rsquo then aposChar
  else c

/-- One position of a "typographic quotes only" defect: the characters agree,
or an ASCII double quote was replaced by a smart double quote, or an ASCII
apostrophe by a smart single quote. -/
def relChar (a b : Char) : Bool :=
  b = a ∨ (a = quoteChar ∧ (b = ldquo ∨ b = rdquo)) ∨
    (a = aposChar ∧ (b = lsquo ∨ b = rsquo))

/-- Function `onlyQuoteDefects r r'`: `r'` is `r` with some ASCII quotes replaced by
typographic ones. -/
def onlyQuoteDefects : List Char → List Char → Bool
  | [], [] => true
  | a :: as, b :: bs => relChar a b && onlyQuoteDefects as bs
  | _, _ => false

/-- Bracket-depth contribution of one character. -/
def bracketDelta (c : Char) : Int :=
  if c = '[' then 1 else if c = ']' then -1 else 0

/-- Net bracket depth over a character list. -/
def bracketBalance (l : List Char) : Int := (l.map bracketDelta).sum

/-- A decision whose action is the spec's `close` (not in the code's
enumeration). -/
def closeActionDecision : Decision :=
  { Decision.zero with Symbol := "BTCUSDT", Action := "close", Reasoning := "exit" }

/-- An open-long decision that satisfies every coded rule while carrying
confidence 1 and risk 0. -/
def openLongLowConfidence : Decision :=
  { Symbol := "BTCUSDT", Action := "open_long", Leverage := 10, PositionSizeUSD := 1000,
    StopLoss := 100, TakeProfit := 200, Confidence := 1, RiskUSD := 0,
    Reasoning := "low-confidence open" }

/-- A well-formed open-short decision (reward/risk ratio 4). -/
def openShortSample : Decision :=
  { Symbol := "SOLUSDT", Action := "open_short", Leverage := 5, PositionSizeUSD := 100,
    StopLoss := 200, TakeProfit := 100, Confidence := 80, RiskUSD := 10,
    Reasoning := "short" }

/-- A valid hold decision. -/
def holdSample : Decision :=
  { Decision.zero with Symbol := "BTCUSDT", Action := "hold", Reasoning := "keep" }

/-- A decision with an action string outside the enumeration. -/
def badActionSample : Decision :=
  { Decision.zero with Symbol := "ETHUSDT", Action := "noop", Reasoning := "bad" }

/-- A two-decision batch whose second member is invalid. -/
def decisionsC5 : List Decision := [holdSample, badActionSample]

/-- A reply whose decision array contains a valid decision followed by an
invalid one. -/
def responseC5 : List Char :=
  ("plan [\x7b\"symbol\": \"BTCUSDT\", \"action\": \"hold\", \"reasoning\": \"keep\"\x7d, \x7b\"symbol\": \"ETHUSDT\", \"action\": \"noop\", \"reasoning\": \"bad\"\x7d]").toList

/-- A well-formed reply with ASCII quotes. -/
def asciiReply : List Char :=
  ("ok [\x7b\"symbol\": \"BTCUSDT\", \"action\": \"hold\", \"reasoning\": \"good\"\x7d]").toList

/-- The same reply with every ASCII double quote replaced by a typographic
one. -/
def smartReply : List Char :=
  ("ok [\x7b“symbol”: “BTCUSDT”, “action”: “hold”, “reasoning”: “good”\x7d]").toList

/-- The decision encoded by `asciiReply` and `smartReply`. -/
def holdGoodDecision : Decision :=
  { Decision.zero with Symbol := "BTCUSDT", Action := "hold", Reasoning := "good" }

/-- Market data with positive open interest but current price 0: its
open-interest value is 0 USD, below the floor. -/
def zeroPriceData : MarketData :=
  { CurrentPrice := 0, OpenInterest := some { Latest := 1000000, Average := 0 } }

/-- Market data for a non-held symbol well under the liquidity floor
(open-interest value 2,000,000 USD). -/
def lowOIData : MarketData :=
  { CurrentPrice := 2, OpenInterest := some { Latest := 1000000, Average := 0 } }

/-- Three strictly falling candles: RSI with period 1 hits exactly 0 in the
smoothed branch. -/
def rsiKlinesC10 : List Kline := [⟨10,10,10,10⟩, ⟨9,9,9,9⟩, ⟨8,8,8,8⟩]

/-! ## Theorems about the indicator engine -/

/-- Helper: a fold of the gains/losses seed step keeps both components
nonnegative. -/
theorem initialGainsLosses_foldl_nonneg (cs : List ℚ) (p : ℚ × ℚ)
    (h1 : 0 ≤ p.1) (h2 : 0 ≤ p.2) :
    0 ≤ (cs.foldl (fun p c => if c > 0 then (p.1 + c, p.2) else (p.1, p.2 + (-c))) p).1 ∧
    0 ≤ (cs.foldl (fun p c => if c > 0 then (p.1 + c, p.2) else (p.1, p.2 + (-c))) p).2 := by
  induction cs generalizing p with
  | nil => exact ⟨h1, h2⟩
  | cons c rest ih =>
    simp only [List.foldl_cons]
    by_cases hc : c > 0
    · exact ih _ (by simp [hc]; linarith) (by simp [hc]; linarith)
    · exact ih _ (by simp [hc]; linarith) (by simp [hc]; linarith)

/-- Helper: Wilder smoothing keeps both running averages nonnegative. -/
theorem wilderStep_foldl_nonneg (period : Nat) (cs : List ℚ) (p : ℚ × ℚ)
    (h1 : 0 ≤ p.1) (h2 : 0 ≤ p.2) :
    0 ≤ (cs.foldl (wilderStep period) p).1 ∧ 0 ≤ (cs.foldl (wilderStep period) p).2 := by
  induction cs generalizing p with
  | nil => exact ⟨h1, h2⟩
  | cons c rest ih =>
    simp only [List.foldl_cons]
    have hper : (0:ℚ) ≤ (period : ℚ) := by positivity
    have hper1 : (0:ℚ) ≤ ((period - 1 : Nat) : ℚ) := by positivity
    by_cases hc : c > 0
    · exact ih _ (by simp [wilderStep, hc]; positivity)
        (by simp [wilderStep, hc]; positivity)
    · refine ih _ (by simp [wilderStep, hc]; positivity) ?_
      have hc' : 0 ≤ -c := by linarith [not_lt.mp hc]
      simp only [wilderStep, hc, if_false]
      exact div_nonneg (by nlinarith) hper

/-- Both components of `wilderAvgs` are nonnegative. -/
theorem wilderAvgs_nonneg (klines : List Kline) (period : Nat) :
    0 ≤ (wilderAvgs klines period).1 ∧ 0 ≤ (wilderAvgs klines period).2 := by
  unfold wilderAvgs
  have hseed := initialGainsLosses_foldl_nonneg
    ((closeChanges klines).take period) (0, 0) le_rfl le_rfl
  have hper : (0:ℚ) ≤ (period : ℚ) := by positivity
  exact wilderStep_foldl_nonneg period _ _
    (div_nonneg (by simpa [initialGainsLosses] using hseed.1) hper)
    (div_nonneg (by simpa [initialGainsLosses] using hseed.2) hper)

/-- C8: for every candle sequence and period ≥ 1, `calculateEMA` returns 0
when there are fewer than `period` candles, and otherwise equals the fold
seeded with the simple moving average of the first `period` closes that
applies `ema := (close - ema) * (2/(period+1)) + ema` to each later close
in order. -/
theorem calculateEMA_matches_spec (klines : List Kline) (period : Nat)
    (_hp : 1 ≤ period) :
    (klines.length < period → calculateEMA klines period = 0) ∧
    (period ≤ klines.length →
      calculateEMA klines period =
        ((klines.drop period).map Kline.close).foldl
          (fun ema c => (c - ema) * (2 / ((period : ℚ) + 1)) + ema)
          (((klines.take period).map Kline.close).sum / (period : ℚ))) := by
  constructor
  · intro h
    simp [calculateEMA, h]
  · intro h
    have h' : ¬ klines.length < period := not_lt.mpr h
    simp only [calculateEMA, h', if_false]
    rw [List.foldl_map]

/-- Witness for `calculateEMA_matches_spec` at a concrete three-candle
sequence with period 2. -/
theorem calculateEMA_matches_spec_witness :
    (([⟨1,1,10,1⟩, ⟨1,1,12,1⟩, ⟨1,1,11,1⟩] : List Kline).length < 2 →
      calculateEMA [⟨1,1,10,1⟩, ⟨1,1,12,1⟩, ⟨1,1,11,1⟩] 2 = 0) ∧
    (2 ≤ ([⟨1,1,10,1⟩, ⟨1,1,12,1⟩, ⟨1,1,11,1⟩] : List Kline).length →
      calculateEMA [⟨1,1,10,1⟩, ⟨1,1,12,1⟩, ⟨1,1,11,1⟩] 2 =
        ((([⟨1,1,10,1⟩, ⟨1,1,12,1⟩, ⟨1,1,11,1⟩] : List Kline).drop 2).map Kline.close).foldl
          (fun ema c => (c - ema) * (2 / ((2 : ℚ) + 1)) + ema)
          (((([⟨1,1,10,1⟩, ⟨1,1,12,1⟩, ⟨1,1,11,1⟩] : List Kline).take 2).map Kline.close).sum / (2 : ℚ))) :=
  calculateEMA_matches_spec [⟨1,1,10,1⟩, ⟨1,1,12,1⟩, ⟨1,1,11,1⟩] 2 (by norm_num)

/-- C9: for swing high strictly above swing low every Fibonacci level equals
`swingHigh - (swingHigh - swingLow) * r / 100`, the six levels strictly
decrease as the ratio grows, and at 110000/90000 the 50.0% level is exactly
100000. -/
theorem calculateFibonacciLevels_matches_spec (swingHigh swingLow : ℚ)
    (h : swingLow < swingHigh) :
    fibLevel swingHigh swingLow ("23.6") = some (swingHigh - (swingHigh - swingLow) * ((236/10) / 100)) ∧
    fibLevel swingHigh swingLow ("38.2") = some (swingHigh - (swingHigh - swingLow) * ((382/10) / 100)) ∧
    fibLevel swingHigh swingLow ("50.0") = some (swingHigh - (swingHigh - swingLow) * ((500/10) / 100)) ∧
    fibLevel swingHigh swingLow ("61.8") = some (swingHigh - (swingHigh - swingLow) * ((618/10) / 100)) ∧
    fibLevel swingHigh swingLow ("70.5") = some (swingHigh - (swingHigh - swingLow) * ((705/10) / 100)) ∧
    fibLevel swingHigh swingLow ("78.6") = some (swingHigh - (swingHigh - swingLow) * ((786/10) / 100)) ∧
    (fibLevel swingHigh swingLow ("38.2")).getD 0 < (fibLevel swingHigh swingLow ("23.6")).getD 0 ∧
    (fibLevel swingHigh swingLow ("50.0")).getD 0 < (fibLevel swingHigh swingLow ("38.2")).getD 0 ∧
    (fibLevel swingHigh swingLow ("61.8")).getD 0 < (fibLevel swingHigh swingLow ("50.0")).getD 0 ∧
    (fibLevel swingHigh swingLow ("70.5")).getD 0 < (fibLevel swingHigh swingLow ("61.8")).getD 0 ∧
    (fibLevel swingHigh swingLow ("78.6")).getD 0 < (fibLevel swingHigh swingLow ("70.5")).getD 0 ∧
    fibLevel 110000 90000 ("50.0") = some 100000 := by
  have h' : ¬ swingHigh ≤ swingLow := not_le.mpr h
  have hd : (0:ℚ) < swingHigh - swingLow := by linarith
  refine ⟨?_, ?_, ?_, ?_, ?_, ?_, ?_, ?_, ?_, ?_, ?_, ?_⟩ <;>
    simp [fibLevel, calculateFibonacciLevels, fibRatios, h'] <;>
    first
      | done
      | linarith
      | (norm_num
         try decide)

/-- Witness for `calculateFibonacciLevels_matches_spec` at 110000/90000. -/
theorem calculateFibonacciLevels_matches_spec_witness :
    (90000 : ℚ) < 110000 ∧ fibLevel 110000 90000 ("50.0") = some (110000 - (110000 - 90000) * ((500/10) / 100)) :=
  ⟨by norm_num, ((calculateFibonacciLevels_matches_spec 110000 90000 (by norm_num)).2.2.1)⟩

/-- C10 (amended): for period ≥ 1 the RSI is always inside [0, 100]; it is 0
when there are at most `period` candles, 100 when the smoothed average loss
is 0, and otherwise equals `100 - 100/(1 + rs)` with `rs ≥ 0`, a value inside
[0, 100) (the value 0 is attained when the average gain is 0, so (0,100)
would be too strong). -/
theorem calculateRSI_range (klines : List Kline) (period : Nat) (_hp : 1 ≤ period) :
    (0 ≤ calculateRSI klines period ∧ calculateRSI klines period ≤ 100) ∧
    (klines.length ≤ period → calculateRSI klines period = 0) ∧
    (period < klines.length → (wilderAvgs klines period).2 = 0 →
      calculateRSI klines period = 100) ∧
    (period < klines.length → (wilderAvgs klines period).2 ≠ 0 →
      calculateRSI klines period =
        100 - 100 / (1 + (wilderAvgs klines period).1 / (wilderAvgs klines period).2) ∧
      0 ≤ calculateRSI klines period ∧ calculateRSI klines period < 100) := by
  obtain ⟨hg, hl⟩ := wilderAvgs_nonneg klines period
  by_cases hlen : klines.length ≤ period
  · have h0 : calculateRSI klines period = 0 := by simp [calculateRSI, hlen]
    exact ⟨⟨by rw [h0], by rw [h0]; norm_num⟩, fun _ => h0,
      fun hlt _ => absurd hlen (not_le.mpr hlt),
      fun hlt _ => absurd hlen (not_le.mpr hlt)⟩
  · have hlen' : period < klines.length := not_le.mp hlen
    by_cases hz : (wilderAvgs klines period).2 = 0
    · have h100 : calculateRSI klines period = 100 := by simp [calculateRSI, hlen, hz]
      exact ⟨⟨by rw [h100]; norm_num, by rw [h100]⟩, fun hle => absurd hle hlen,
        fun _ _ => h100, fun _ hne => absurd hz hne⟩
    · have hlpos : 0 < (wilderAvgs klines period).2 := lt_of_le_of_ne hl (Ne.symm hz)
      have hrs : 0 ≤ (wilderAvgs klines period).1 / (wilderAvgs klines period).2 :=
        div_nonneg hg hl
      have h1 : (0:ℚ) < 1 + (wilderAvgs klines period).1 / (wilderAvgs klines period).2 := by
        linarith
      have h2 : 100 / (1 + (wilderAvgs klines period).1 / (wilderAvgs klines period).2) ≤ 100 := by
        rw [div_le_iff₀ h1]; nlinarith
      have h3 : 0 < 100 / (1 + (wilderAvgs klines period).1 / (wilderAvgs klines period).2) := by
        positivity
      have hval : calculateRSI klines period =
          100 - 100 / (1 + (wilderAvgs klines period).1 / (wilderAvgs klines period).2) := by
        simp [calculateRSI, hlen, hz]
      exact ⟨⟨by rw [hval]; linarith, by rw [hval]; linarith⟩, fun hle => absurd hle hlen,
        fun _ hz0 => absurd hz0 hz,
        fun _ _ => ⟨hval, by rw [hval]; linarith, by rw [hval]; linarith⟩⟩

/-- C10 counterexample: on three falling closes with period 1 the RSI takes
the `100 - 100/(1+rs)` branch (more than `period` candles, nonzero average
loss) yet returns exactly 0, which lies outside the open interval (0, 100)
asserted by the claim. -/
theorem calculateRSI_open_interval_counterexample :
    1 < rsiKlinesC10.length ∧ (wilderAvgs rsiKlinesC10 1).2 ≠ 0 ∧
    calculateRSI rsiKlinesC10 1 = 0 := by
  refine ⟨by norm_num [rsiKlinesC10], ?_, ?_⟩ <;>
    norm_num [calculateRSI, wilderAvgs, rsiKlinesC10, closeChanges,
      initialGainsLosses, wilderStep]

/-- Witness for `calculateRSI_range` at the concrete falling sequence with
period 1. -/
theorem calculateRSI_range_witness :
    (0 ≤ calculateRSI rsiKlinesC10 1 ∧ calculateRSI rsiKlinesC10 1 ≤ 100) ∧
    (rsiKlinesC10.length ≤ 1 → calculateRSI rsiKlinesC10 1 = 0) ∧
    (1 < rsiKlinesC10.length → (wilderAvgs rsiKlinesC10 1).2 = 0 →
      calculateRSI rsiKlinesC10 1 = 100) ∧
    (1 < rsiKlinesC10.length → (wilderAvgs rsiKlinesC10 1).2 ≠ 0 →
      calculateRSI rsiKlinesC10 1 =
        100 - 100 / (1 + (wilderAvgs rsiKlinesC10 1).1 / (wilderAvgs rsiKlinesC10 1).2) ∧
      0 ≤ calculateRSI rsiKlinesC10 1 ∧ calculateRSI rsiKlinesC10 1 < 100) :=
  calculateRSI_range rsiKlinesC10 1 (by norm_num)

/-! ## Theorems about the decision validator -/

/-- C2 (amended): the action check of `validateDecision` accepts exactly the
closed six-element enumeration `open_long, open_short, close_long,
close_short, hold, wait`; every action string outside it is a hard
rejection carrying that string, and no in-enumeration action is ever
rejected for its action string alone. -/
theorem validateDecision_action_enumeration (d : Decision) (accountEquity : ℚ)
    (btcEthLeverage altcoinLeverage : Int) :
    ((∃ s, validateDecision d accountEquity btcEthLeverage altcoinLeverage =
        .error (.invalidAction s)) ↔ validActions.contains d.Action = false) ∧
    (validActions.contains d.Action = false →
      validateDecision d accountEquity btcEthLeverage altcoinLeverage =
        .error (.invalidAction d.Action)) := by
  have key : validActions.contains d.Action = true →
      ∀ s, validateDecision d accountEquity btcEthLeverage altcoinLeverage ≠
        .error (.invalidAction s) := by
    intro hc s
    unfold validateDecision
    rw [if_neg (by simpa using hc)]
    split_ifs <;> simp
  have kneg : validActions.contains d.Action = false →
      validateDecision d accountEquity btcEthLeverage altcoinLeverage =
        .error (.invalidAction d.Action) := by
    intro hc
    unfold validateDecision
    rw [if_pos (by simpa using hc)]
  refine ⟨⟨?_, fun hc => ⟨d.Action, kneg hc⟩⟩, kneg⟩
  rintro ⟨s, hs⟩
  cases hcc : validActions.contains d.Action with
  | false => rfl
  | true => exact absurd hs (key hcc s)

/-- C2 counterexample: the actions `close`, `update_stop_loss`,
`update_take_profit` and `partial_close`, which the claim places inside the
valid enumeration, are all hard-rejected by `validateDecision`. -/
theorem validateDecision_extra_actions_rejected :
    validateDecision closeActionDecision 1000 50 20 =
      .error (.invalidAction ("close")) ∧
    validateDecision { closeActionDecision with Action := "update_stop_loss" } 1000 50 20 =
      .error (.invalidAction ("update_stop_loss")) ∧
    validateDecision { closeActionDecision with Action := "update_take_profit" } 1000 50 20 =
      .error (.invalidAction ("update_take_profit")) ∧
    validateDecision { closeActionDecision with Action := "partial_close" } 1000 50 20 =
      .error (.invalidAction ("partial_close")) := by
  refine ⟨?_, ?_, ?_, ?_⟩ <;> decide

/-- Witness for `validateDecision_action_enumeration` at a concrete hold
decision. -/
theorem validateDecision_action_enumeration_witness :
    ((∃ s, validateDecision holdSample 1000 50 20 = .error (.invalidAction s)) ↔
      validActions.contains holdSample.Action = false) ∧
    (validActions.contains holdSample.Action = false →
      validateDecision holdSample 1000 50 20 = .error (.invalidAction holdSample.Action)) :=
  validateDecision_action_enumeration holdSample 1000 50 20

/-- C3 counterexample: an open-long decision that satisfies every coded rule
but has confidence 1 (far below any threshold) and risk-in-USD 0 passes
validation, refuting the claimed confidence and risk checks. -/
theorem validateDecision_low_confidence_zero_risk_accepted :
    openLongLowConfidence.Confidence = 1 ∧ openLongLowConfidence.RiskUSD = 0 ∧
    validateDecision openLongLowConfidence 1000 50 20 = .ok () := by
  refine ⟨rfl, rfl, ?_⟩
  norm_num [validateDecision, validActions, openLongLowConfidence, maxLeverageOf,
    maxPositionValueOf, isMajor, riskRewardRatioOf, riskPercentOf, rewardPercentOf,
    entryPriceOf]

/-- C3 (amended): `validateDecision` never reads the confidence or
risk-in-USD fields — its result is invariant under changing them — so no
minimum-confidence or risk-ceiling check exists. -/
theorem validateDecision_ignores_confidence_and_risk (d : Decision) (accountEquity : ℚ)
    (btcEthLeverage altcoinLeverage : Int) (c : Int) (q : ℚ) :
    validateDecision { d with Confidence := c, RiskUSD := q } accountEquity
        btcEthLeverage altcoinLeverage =
      validateDecision d accountEquity btcEthLeverage altcoinLeverage := rfl

/-- Witness for `validateDecision_ignores_confidence_and_risk` at concrete
values. -/
theorem validateDecision_ignores_confidence_and_risk_witness :
    validateDecision { openLongLowConfidence with Confidence := 99, RiskUSD := 50 } 1000 50 20 =
      validateDecision openLongLowConfidence 1000 50 20 :=
  validateDecision_ignores_confidence_and_risk openLongLowConfidence 1000 50 20 99 50

/-- C4: for an open decision that passes the leverage, position-size and
stop/take-profit checks, the validator's synthetic entry price equals the
spec's 20% interpolation from stop-loss toward take-profit, its reward/risk
ratio equals the spec's estimate off that entry, the risk percentage is
positive, and the decision is rejected (with the risk-reward error) exactly
when that ratio is below 3.0. -/
theorem validateDecision_risk_reward_gate (d : Decision) (accountEquity : ℚ)
    (btcEthLeverage altcoinLeverage : Int)
    (hact : d.Action = "open_long" ∨ d.Action = "open_short")
    (hlev : ¬ (d.Leverage ≤ 0 ∨ d.Leverage > maxLeverageOf d btcEthLeverage altcoinLeverage))
    (hsizePos : ¬ (d.PositionSizeUSD ≤ 0))
    (hsizeCap : ¬ (d.PositionSizeUSD >
      maxPositionValueOf d accountEquity + maxPositionValueOf d accountEquity * (1/100)))
    (hstops : ¬ (d.StopLoss ≤ 0 ∨ d.TakeProfit ≤ 0))
    (hlong : d.Action = "open_long" → d.StopLoss < d.TakeProfit)
    (hshort : d.Action = "open_short" → d.TakeProfit < d.StopLoss) :
    riskRewardRatioOf d = riskRewardRatioSpec d ∧
    entryPriceOf d = syntheticEntrySpec d.StopLoss d.TakeProfit ∧
    0 < riskPercentOf d ∧
    (validateDecision d accountEquity btcEthLeverage altcoinLeverage = .ok () ↔
      3 ≤ riskRewardRatioSpec d) ∧
    (riskRewardRatioSpec d < 3 →
      validateDecision d accountEquity btcEthLeverage altcoinLeverage =
        .error (.riskRewardTooLow (riskRewardRatioSpec d) (riskPercentOf d)
          (rewardPercentOf d) d.StopLoss d.TakeProfit)) := by
  push_neg at hstops
  obtain ⟨hSL, hTP⟩ := hstops
  have hent : entryPriceOf d = syntheticEntrySpec d.StopLoss d.TakeProfit := by
    unfold entryPriceOf syntheticEntrySpec
    split_ifs with h
    · rfl
    · ring
  have hratio : riskRewardRatioOf d = riskRewardRatioSpec d := by
    simp only [riskRewardRatioOf, riskRewardRatioSpec, riskPercentOf, rewardPercentOf]
    rw [← hent]
  have hcont : ¬¬ (validActions.contains d.Action = true) := by
    rcases hact with h | h <;> simp [validActions, h]
  have hnotlongbad : ¬ (d.Action = "open_long" ∧ d.StopLoss ≥ d.TakeProfit) := by
    rintro ⟨h1, h2⟩
    exact absurd (hlong h1) (not_lt.mpr h2)
  have hnotshort : ¬ (d.Action ≠ "open_long" ∧ d.StopLoss ≤ d.TakeProfit) := by
    rintro ⟨h1, h2⟩
    rcases hact with h | h
    · exact h1 h
    · exact absurd (hshort h) (not_lt.mpr h2)
  have hentpos : 0 < entryPriceOf d := by
    rw [hent]
    unfold syntheticEntrySpec
    rcases hact with h | h
    · have := hlong h
      linarith
    · have := hshort h
      linarith
  have hrisk : 0 < riskPercentOf d := by
    unfold riskPercentOf
    rcases hact with h | h
    · rw [if_pos h]
      have hnum : 0 < entryPriceOf d - d.StopLoss := by
        rw [hent]
        unfold syntheticEntrySpec
        have := hlong h
        linarith
      exact mul_pos (div_pos hnum hentpos) (by norm_num)
    · rw [if_neg (by simp [h])]
      have hnum : 0 < d.StopLoss - entryPriceOf d := by
        rw [hent]
        unfold syntheticEntrySpec
        have := hshort h
        linarith
      exact mul_pos (div_pos hnum hentpos) (by norm_num)
  have hval : validateDecision d accountEquity btcEthLeverage altcoinLeverage =
      if riskRewardRatioOf d < 3 then
        .error (.riskRewardTooLow (riskRewardRatioOf d) (riskPercentOf d)
          (rewardPercentOf d) d.StopLoss d.TakeProfit)
      else .ok () := by
    unfold validateDecision
    rw [if_neg hcont, if_pos hact, if_neg hlev, if_neg hsizePos, if_neg hsizeCap,
      if_neg (by rintro (h | h) <;> [exact absurd h (not_le.mpr hSL); exact absurd h (not_le.mpr hTP)]),
      if_neg hnotlongbad, if_neg hnotshort]
  refine ⟨hratio, hent, hrisk, ?_, ?_⟩
  · rw [hval, ← hratio]
    constructor
    · intro h
      by_cases hx : riskRewardRatioOf d < 3
      · rw [if_pos hx] at h
        exact absurd h (by simp)
      · exact not_lt.mp hx
    · intro h3
      rw [if_neg (not_lt.mpr h3)]
  · intro hlt
    rw [hval, if_pos (by rw [hratio]; exact hlt), hratio]

/-- Witness for `validateDecision_risk_reward_gate` at a concrete open-short
decision with ratio 4. -/
theorem validateDecision_risk_reward_gate_witness :
    riskRewardRatioOf openShortSample = riskRewardRatioSpec openShortSample ∧
    entryPriceOf openShortSample =
      syntheticEntrySpec openShortSample.StopLoss openShortSample.TakeProfit ∧
    0 < riskPercentOf openShortSample ∧
    (validateDecision openShortSample 1000 50 20 = .ok () ↔
      3 ≤ riskRewardRatioSpec openShortSample) ∧
    (riskRewardRatioSpec openShortSample < 3 →
      validateDecision openShortSample 1000 50 20 =
        .error (.riskRewardTooLow (riskRewardRatioSpec openShortSample)
          (riskPercentOf openShortSample) (rewardPercentOf openShortSample)
          openShortSample.StopLoss openShortSample.TakeProfit)) :=
  validateDecision_risk_reward_gate openShortSample 1000 50 20
    (Or.inr rfl)
    (by decide)
    (by norm_num [openShortSample])
    (by simp [maxPositionValueOf, isMajor, openShortSample]
        norm_num)
    (by norm_num [openShortSample])
    (by intro h; simp [openShortSample] at h)
    (fun _ => by norm_num [openShortSample])

/-- Helper: full characterization of the index-tracking validation loop —
it reports the 1-based position (offset by `base`) of the first invalid
decision together with that decision's own validation error. -/
theorem validateDecisionsFrom_error_iff (ds : List Decision) (accountEquity : ℚ)
    (btcEthLeverage altcoinLeverage : Int) (base k : Nat) (e : ValidationError) :
    validateDecisionsFrom ds base accountEquity btcEthLeverage altcoinLeverage =
        .error (k, e) ↔
      ∃ i, k = base + i + 1 ∧
        ∃ d, ds.get? i = some d ∧
          validateDecision d accountEquity btcEthLeverage altcoinLeverage = .error e ∧
          ∀ j, j < i → ∀ dj, ds.get? j = some dj →
            validateDecision dj accountEquity btcEthLeverage altcoinLeverage = .ok () := by
  induction ds generalizing base with
  | nil => simp [validateDecisionsFrom]
  | cons d rest ih =>
    unfold validateDecisionsFrom
    cases hv : validateDecision d accountEquity btcEthLeverage altcoinLeverage with
    | error e0 =>
      constructor
      · intro h
        rw [Except.error.injEq, Prod.mk.injEq] at h
        obtain ⟨hk, he⟩ := h
        exact ⟨0, by omega, d, rfl, by rw [hv, he],
          fun j hj => absurd hj (Nat.not_lt_zero j)⟩
      · rintro ⟨i, hk, d', hget, herr, hprev⟩
        cases i with
        | zero =>
          have hd : d = d' := by simpa using hget
          rw [← hd] at herr
          rw [herr] at hv
          have he : e0 = e := by simpa using hv.symm
          rw [hk, he]
        | succ i' =>
          exact absurd (hprev 0 (Nat.succ_pos i') d rfl) (by simp [hv])
    | ok u =>
      cases u
      rw [ih]
      constructor
      · rintro ⟨i, hk, d', hget, herr, hprev⟩
        refine ⟨i + 1, by omega, d', by simpa using hget, herr, ?_⟩
        intro j hj dj hgetj
        cases j with
        | zero =>
          have hdj : d = dj := by simpa using hgetj
          rw [← hdj]
          exact hv
        | succ j' =>
          exact hprev j' (by omega) dj (by simpa using hgetj)
      · rintro ⟨i, hk, d', hget, herr, hprev⟩
        cases i with
        | zero =>
          have hd : d = d' := by simpa using hget
          rw [← hd] at herr
          exact absurd herr (by simp [hv])
        | succ i' =>
          refine ⟨i', by omega, d', by simpa using hget, herr, ?_⟩
          intro j hj dj hgetj
          exact hprev (j + 1) (by omega) dj (by simpa using hgetj)

/-- C5: batch validation is fail-fast — it reports exactly the 1-based index
of the first invalid decision together with the rule error that decision
fails, earlier decisions all being valid — and on a validation failure the
response parser still hands the caller the full (rejected) decision list
next to the error. -/
theorem validateDecisions_fail_fast (ds : List Decision) (accountEquity : ℚ)
    (btcEthLeverage altcoinLeverage : Int) (k : Nat) (e : ValidationError) :
    (validateDecisions ds accountEquity btcEthLeverage altcoinLeverage = .error (k, e) ↔
      ∃ i, k = i + 1 ∧
        ∃ d, ds.get? i = some d ∧
          validateDecision d accountEquity btcEthLeverage altcoinLeverage = .error e ∧
          ∀ j, j < i → ∀ dj, ds.get? j = some dj →
            validateDecision dj accountEquity btcEthLeverage altcoinLeverage = .ok ()) ∧
    (∀ response, extractDecisions response = .ok ds →
      validateDecisions ds accountEquity btcEthLeverage altcoinLeverage = .error (k, e) →
      parseFullDecisionResponse response accountEquity btcEthLeverage altcoinLeverage =
        ({ CoTTrace := extractCoTTrace response, Decisions := ds },
          some (.validationFailed k e))) := by
  constructor
  · have h := validateDecisionsFrom_error_iff ds accountEquity btcEthLeverage
      altcoinLeverage 0 k e
    simpa [validateDecisions] using h
  · intro response hex hval
    unfold parseFullDecisionResponse
    rw [hex]
    dsimp only
    rw [hval]

set_option maxRecDepth 4000 in
/-- Witness for `validateDecisions_fail_fast`: a concrete reply whose second
decision has an invalid action; extraction yields both decisions, validation
stops at index 2 with that decision's rule error, and the parser returns the
full rejected list next to the error. -/
theorem validateDecisions_fail_fast_witness :
    extractDecisions responseC5 = .ok decisionsC5 ∧
    validateDecisions decisionsC5 1000 50 20 = .error (2, .invalidAction ("noop")) ∧
    parseFullDecisionResponse responseC5 1000 50 20 =
      ({ CoTTrace := ("plan").toList, Decisions := decisionsC5 },
        some (.validationFailed 2 (.invalidAction ("noop")))) := by
  refine ⟨by decide, by decide, ?_⟩
  have h := (validateDecisions_fail_fast decisionsC5 1000 50 20 2
    (.invalidAction ("noop"))).2 responseC5 (by decide) (by decide)
  rw [show extractCoTTrace responseC5 = ("plan").toList from by decide] at h
  exact h

/-! ## Theorems about the snapshot builder's liquidity gate -/

/-- C6 (amended): a fetched symbol appears in the snapshot exactly when its
fetch succeeded and the liquidity gate keeps it; held symbols are always
kept, and a non-held symbol with open-interest data and a positive price is
dropped exactly when its open-interest value (latest OI × price) is below
15,000,000 USD.  (The code's gate additionally requires a positive current
price and present open-interest data before it can drop a symbol.) -/
theorem buildSnapshot_liquidity_gate (fetches : List (String × Option MarketData))
    (positionSymbols : List String) (symbol : String) (data : MarketData) :
    ((symbol, data) ∈ buildSnapshot fetches positionSymbols ↔
      (symbol, some data) ∈ fetches ∧
        liquidityGateKeeps (positionSymbols.contains symbol) data = true) ∧
    liquidityGateKeeps true data = true ∧
    (∀ oi : OIData, data.OpenInterest = some oi → 0 < data.CurrentPrice →
      (liquidityGateKeeps false data = false ↔
        oi.Latest * data.CurrentPrice < 15000000)) := by
  refine ⟨?_, by simp [liquidityGateKeeps], ?_⟩
  · induction fetches with
    | nil => simp [buildSnapshot]
    | cons f rest ih =>
      obtain ⟨s, r⟩ := f
      cases r with
      | none =>
        unfold buildSnapshot
        rw [ih]
        simp
      | some dt =>
        unfold buildSnapshot
        by_cases hk : liquidityGateKeeps (positionSymbols.contains s) dt = true
        · rw [if_pos hk]
          constructor
          · intro hmem
            rcases List.mem_cons.mp hmem with heq | htail
            · obtain ⟨h1, h2⟩ := Prod.mk.injEq .. ▸ heq
              subst h1
              subst h2
              exact ⟨List.mem_cons_self _ _, hk⟩
            · obtain ⟨h1, h2⟩ := ih.mp htail
              exact ⟨List.mem_cons_of_mem _ h1, h2⟩
          · rintro ⟨hmem, hkeep⟩
            rcases List.mem_cons.mp hmem with heq | htail
            · obtain ⟨h1, h2⟩ := Prod.mk.injEq .. ▸ heq
              subst h1
              rw [Option.some.injEq] at h2
              subst h2
              exact List.mem_cons_self _ _
            · exact List.mem_cons_of_mem _ (ih.mpr ⟨htail, hkeep⟩)
        · rw [if_neg hk]
          rw [ih]
          constructor
          · rintro ⟨htail, hkeep⟩
            exact ⟨List.mem_cons_of_mem _ htail, hkeep⟩
          · rintro ⟨hmem, hkeep⟩
            rcases List.mem_cons.mp hmem with heq | htail
            · obtain ⟨h1, h2⟩ := Prod.mk.injEq .. ▸ heq
              subst h1
              rw [Option.some.injEq] at h2
              subst h2
              exact absurd hkeep hk
            · exact ⟨htail, hkeep⟩
  · intro oi hoi hpr
    simp only [liquidityGateKeeps, hoi]
    rw [if_pos ⟨by simp, by simp [hoi], hpr⟩]
    simp only [decide_eq_false_iff_not, not_not]
    rw [div_lt_iff₀ (by norm_num : (0:ℚ) < 1000000)]
    constructor
    · intro h
      linarith
    · intro h
      linarith

/-- C6 counterexample: a successfully fetched non-held symbol whose
open-interest value (latest OI × current price = 1,000,000 × 0 = 0 USD) is
below the 15,000,000 floor is nevertheless retained in the snapshot,
because the gate only fires when the current price is positive. -/
theorem buildSnapshot_zero_price_counterexample :
    zeroPriceData.OpenInterest = some { Latest := 1000000, Average := 0 } ∧
    (1000000 : ℚ) * zeroPriceData.CurrentPrice < 15000000 ∧
    (([] : List String).contains ("AAAUSDT")) = false ∧
    buildSnapshot [("AAAUSDT", some zeroPriceData)] [] =
      [("AAAUSDT", zeroPriceData)] := by
  refine ⟨rfl, by norm_num [zeroPriceData], rfl, ?_⟩
  norm_num [buildSnapshot, liquidityGateKeeps, zeroPriceData]

/-- Witness for `buildSnapshot_liquidity_gate` at a concrete low-open-interest
symbol. -/
theorem buildSnapshot_liquidity_gate_witness :
    ((("LOWUSDT", lowOIData) ∈ buildSnapshot [("LOWUSDT", some lowOIData)] [] ↔
      ("LOWUSDT", some lowOIData) ∈ [("LOWUSDT", some lowOIData)] ∧
        liquidityGateKeeps ((([] : List String).contains ("LOWUSDT"))) lowOIData = true) ∧
    liquidityGateKeeps true lowOIData = true ∧
    (∀ oi : OIData, lowOIData.OpenInterest = some oi → 0 < lowOIData.CurrentPrice →
      (liquidityGateKeeps false lowOIData = false ↔
        oi.Latest * lowOIData.CurrentPrice < 15000000))) :=
  buildSnapshot_liquidity_gate [("LOWUSDT", some lowOIData)] [] ("LOWUSDT") lowOIData

/-! ## Theorems about quote normalization (decision parser) -/

/-- Helper: a quote-defect-related pair of characters agrees on bracket
tests, on the whitespace test, and on the normalized quote value. -/
theorem relChar_props (a b : Char) (h : relChar a b = true) :
    (a = '[' ↔ b = '[') ∧ (a = ']' ↔ b = ']') ∧ isSpaceChar a = isSpaceChar b ∧
    quoteNormalSpec b = quoteNormalSpec a := by
  simp only [relChar, Bool.or_eq_true, decide_eq_true_eq, Bool.and_eq_true] at h
  rcases h with h | ⟨ha, hb⟩ | ⟨ha, hb⟩
  · subst h
    exact ⟨Iff.rfl, Iff.rfl, rfl, rfl⟩
  · subst ha
    rcases hb with hb | hb <;> subst hb <;> exact ⟨by decide, by decide, by decide, by decide⟩
  · subst ha
    rcases hb with hb | hb <;> subst hb <;> exact ⟨by decide, by decide, by decide, by decide⟩

/-- Helper: the four sequential replacements of `fixMissingQuotes` act as
the spec's per-character normalization map. -/
theorem fixMissingQuotes_eq_map (s : List Char) :
    fixMissingQuotes s = s.map quoteNormalSpec := by
  induction s with
  | nil => rfl
  | cons c rest ih =>
    simp only [fixMissingQuotes, replaceAllChar, List.map_cons, List.map_map] at ih ⊢
    rw [List.cons.injEq]
    refine ⟨?_, ih⟩
    by_cases h1 : c = ldquo
    · subst h1; decide
    · by_cases h2 : c = rdquo
      · subst h2; decide
      · by_cases h3 : c = lsquo
        · subst h3; decide
        · by_cases h4 : c = rsquo
          · subst h4; decide
          · simp [quoteNormalSpec, h1, h2, h3, h4]

/-- Helper: unpacking one step of `onlyQuoteDefects`. -/
theorem oqd_cons_iff (a b : Char) (as bs : List Char) :
    onlyQuoteDefects (a :: as) (b :: bs) = true ↔
      relChar a b = true ∧ onlyQuoteDefects as bs = true := by
  simp [onlyQuoteDefects]

/-- Helper: quote defects do not move the first `[`. -/
theorem oqd_indexBracket {r r' : List Char} (h : onlyQuoteDefects r r' = true) :
    indexOfChar r '[' = indexOfChar r' '[' := by
  induction r generalizing r' with
  | nil =>
    cases r' with
    | nil => rfl
    | cons b bs => simp [onlyQuoteDefects] at h
  | cons a as ih =>
    cases r' with
    | nil => simp [onlyQuoteDefects] at h
    | cons b bs =>
      obtain ⟨hab, htail⟩ := (oqd_cons_iff a b as bs).mp h
      have hiff := (relChar_props a b hab).1
      unfold indexOfChar
      by_cases ha : a = '['
      · rw [if_pos ha, if_pos (hiff.mp ha)]
      · rw [if_neg ha, if_neg (fun hb => ha (hiff.mpr hb)), ih htail]

/-- Helper: quote defects survive `List.drop`. -/
theorem oqd_drop (n : Nat) {r r' : List Char} (h : onlyQuoteDefects r r' = true) :
    onlyQuoteDefects (r.drop n) (r'.drop n) = true := by
  induction n generalizing r r' with
  | zero => exact h
  | succ m ih =>
    cases r with
    | nil =>
      cases r' with
      | nil => exact h
      | cons b bs => simp [onlyQuoteDefects] at h
    | cons a as =>
      cases r' with
      | nil => simp [onlyQuoteDefects] at h
      | cons b bs =>
        obtain ⟨_, htail⟩ := (oqd_cons_iff a b as bs).mp h
        exact ih htail

/-- Helper: quote defects survive `List.take`. -/
theorem oqd_take (n : Nat) {r r' : List Char} (h : onlyQuoteDefects r r' = true) :
    onlyQuoteDefects (r.take n) (r'.take n) = true := by
  induction n generalizing r r' with
  | zero =>
    cases r <;> cases r' <;> simp [onlyQuoteDefects] at h ⊢
  | succ m ih =>
    cases r with
    | nil =>
      cases r' with
      | nil => exact h
      | cons b bs => simp [onlyQuoteDefects] at h
    | cons a as =>
      cases r' with
      | nil => simp [onlyQuoteDefects] at h
      | cons b bs =>
        obtain ⟨hab, htail⟩ := (oqd_cons_iff a b as bs).mp h
        simp only [List.take_succ_cons]
        exact (oqd_cons_iff a b _ _).mpr ⟨hab, ih htail⟩

/-- Helper: quote defects are stable under appending. -/
theorem oqd_append {a b c d : List Char} (h1 : onlyQuoteDefects a b = true)
    (h2 : onlyQuoteDefects c d = true) :
    onlyQuoteDefects (a ++ c) (b ++ d) = true := by
  induction a generalizing b with
  | nil =>
    cases b with
    | nil => exact h2
    | cons x xs => simp [onlyQuoteDefects] at h1
  | cons x xs ih =>
    cases b with
    | nil => simp [onlyQuoteDefects] at h1
    | cons y ys =>
      obtain ⟨hxy, htail⟩ := (oqd_cons_iff x y xs ys).mp h1
      simp only [List.cons_append]
      exact (oqd_cons_iff x y _ _).mpr ⟨hxy, ih htail⟩

/-- Helper: quote defects survive reversal. -/
theorem oqd_reverse {r r' : List Char} (h : onlyQuoteDefects r r' = true) :
    onlyQuoteDefects r.reverse r'.reverse = true := by
  induction r generalizing r' with
  | nil =>
    cases r' with
    | nil => exact h
    | cons b bs => simp [onlyQuoteDefects] at h
  | cons a as ih =>
    cases r' with
    | nil => simp [onlyQuoteDefects] at h
    | cons b bs =>
      obtain ⟨hab, htail⟩ := (oqd_cons_iff a b as bs).mp h
      simp only [List.reverse_cons]
      exact oqd_append (ih htail) ((oqd_cons_iff a b [] []).mpr ⟨hab, rfl⟩)

/-- Helper: quote defects survive dropping leading whitespace. -/
theorem oqd_dropWhile_space {r r' : List Char} (h : onlyQuoteDefects r r' = true) :
    onlyQuoteDefects (r.dropWhile isSpaceChar) (r'.dropWhile isSpaceChar) = true := by
  induction r generalizing r' with
  | nil =>
    cases r' with
    | nil => exact h
    | cons b bs => simp [onlyQuoteDefects] at h
  | cons a as ih =>
    cases r' with
    | nil => simp [onlyQuoteDefects] at h
    | cons b bs =>
      obtain ⟨hab, htail⟩ := (oqd_cons_iff a b as bs).mp h
      have hsp := (relChar_props a b hab).2.2.1
      by_cases hsa : isSpaceChar a = true
      · rw [List.dropWhile_cons_of_pos hsa, List.dropWhile_cons_of_pos (hsp ▸ hsa)]
        exact ih htail
      · rw [List.dropWhile_cons_of_neg hsa,
          List.dropWhile_cons_of_neg (fun hb => hsa (hsp ▸ hb))]
        exact (oqd_cons_iff a b as bs).mpr ⟨hab, htail⟩

/-- Helper: quote defects survive `trimSpace`. -/
theorem oqd_trimSpace {r r' : List Char} (h : onlyQuoteDefects r r' = true) :
    onlyQuoteDefects (trimSpace r) (trimSpace r') = true :=
  oqd_reverse (oqd_dropWhile_space (oqd_reverse (oqd_dropWhile_space h)))

/-- Helper: the bracket-depth scan ignores quote defects. -/
theorem oqd_bracketLoop {l l' : List Char} (h : onlyQuoteDefects l l' = true)
    (d : Int) (i : Nat) : bracketLoop l d i = bracketLoop l' d i := by
  induction l generalizing l' d i with
  | nil =>
    cases l' with
    | nil => rfl
    | cons b bs => simp [onlyQuoteDefects] at h
  | cons a as ih =>
    cases l' with
    | nil => simp [onlyQuoteDefects] at h
    | cons b bs =>
      obtain ⟨hab, htail⟩ := (oqd_cons_iff a b as bs).mp h
      obtain ⟨hbr, hcl, _, _⟩ := relChar_props a b hab
      unfold bracketLoop
      by_cases ha : a = '['
      · rw [if_pos ha, if_pos (hbr.mp ha)]
        exact ih htail (d + 1) (i + 1)
      · rw [if_neg ha, if_neg (fun hb => ha (hbr.mpr hb))]
        by_cases hc : a = ']'
        · rw [if_pos hc, if_pos (hcl.mp hc)]
          by_cases hd : d - 1 = 0
          · rw [if_pos hd, if_pos hd]
          · rw [if_neg hd, if_neg hd]
            exact ih htail (d - 1) (i + 1)
        · rw [if_neg hc, if_neg (fun hb => hc (hcl.mpr hb))]
          exact ih htail d (i + 1)

/-- Helper: quote normalization erases quote defects entirely. -/
theorem oqd_fix {r r' : List Char} (h : onlyQuoteDefects r r' = true) :
    fixMissingQuotes r = fixMissingQuotes r' := by
  rw [fixMissingQuotes_eq_map, fixMissingQuotes_eq_map]
  induction r generalizing r' with
  | nil =>
    cases r' with
    | nil => rfl
    | cons b bs => simp [onlyQuoteDefects] at h
  | cons a as ih =>
    cases r' with
    | nil => simp [onlyQuoteDefects] at h
    | cons b bs =>
      obtain ⟨hab, htail⟩ := (oqd_cons_iff a b as bs).mp h
      simp only [List.map_cons]
      rw [(relChar_props a b hab).2.2.2, ih htail]

/-- Helper: the character at a reported index really is the sought one. -/
theorem indexOfChar_get (s : List Char) (c : Char) (i : Nat)
    (h : indexOfChar s c = some i) : s.get? i = some c := by
  induction s generalizing i with
  | nil => simp [indexOfChar] at h
  | cons a rest ih =>
    unfold indexOfChar at h
    by_cases ha : a = c
    · rw [if_pos ha] at h
      have h0 : i = 0 := by simpa using h.symm
      subst h0
      simp [ha]
    · rw [if_neg ha] at h
      cases hr : indexOfChar rest c with
      | none => rw [hr] at h; simp at h
      | some j =>
        rw [hr] at h
        have hj : j + 1 = i := by simpa using h
        rw [← hj]
        simpa using ih j hr

/-- C7: before the bracketed substring is decoded, `fixMissingQuotes` maps
every smart double quote (U+201C, U+201D) to the ASCII double quote and
every smart single quote (U+2018, U+2019) to the ASCII apostrophe;
consequently a reply differing from a successfully parsed one only by such
typographic quotes parses successfully to the same decisions. -/
theorem extractDecisions_smart_quote_normalization (r r' : List Char)
    (ds : List Decision) (hrel : onlyQuoteDefects r r' = true)
    (hok : extractDecisions r = .ok ds) :
    (quoteNormalSpec ldquo = quoteChar ∧ quoteNormalSpec rdquo = quoteChar ∧
      quoteNormalSpec lsquo = aposChar ∧ quoteNormalSpec rsquo = aposChar ∧
      (∀ s, fixMissingQuotes s = s.map quoteNormalSpec)) ∧
    extractDecisions r' = .ok ds := by
  refine ⟨⟨by decide, by decide, by decide, by decide, fixMissingQuotes_eq_map⟩, ?_⟩
  unfold extractDecisions at hok ⊢
  cases hidx : indexOfChar r '[' with
  | none =>
    rw [hidx] at hok
    exact absurd hok (by simp)
  | some i =>
    rw [hidx] at hok
    have hidx' : indexOfChar r' '[' = some i := by rw [← oqd_indexBracket hrel, hidx]
    rw [hidx']
    dsimp only at hok ⊢
    have hget : r.get? i = some '[' := indexOfChar_get r '[' i hidx
    have hget' : r'.get? i = some '[' := indexOfChar_get r' '[' i hidx'
    have hfmb : findMatchingBracket r i = findMatchingBracket r' i := by
      unfold findMatchingBracket
      rw [if_pos hget, if_pos hget']
      exact oqd_bracketLoop (oqd_drop i hrel) 0 i
    cases hend : findMatchingBracket r i with
    | none =>
      rw [hend] at hok
      exact absurd hok (by simp)
    | some j =>
      rw [hend] at hok
      rw [← hfmb, hend]
      have hsub : fixMissingQuotes (trimSpace ((r.drop i).take (j + 1 - i))) =
          fixMissingQuotes (trimSpace ((r'.drop i).take (j + 1 - i))) :=
        oqd_fix (oqd_trimSpace (oqd_take (j + 1 - i) (oqd_drop i hrel)))
      dsimp only at hok ⊢
      rw [← hsub]
      exact hok

set_option maxRecDepth 4000 in
/-- Witness for `extractDecisions_smart_quote_normalization`: a concrete
reply parses, and the same reply with typographic double quotes parses to
the same single decision. -/
theorem extractDecisions_smart_quote_normalization_witness :
    onlyQuoteDefects asciiReply smartReply = true ∧
    extractDecisions asciiReply = .ok [holdGoodDecision] ∧
    extractDecisions smartReply = .ok [holdGoodDecision] := by
  refine ⟨by decide, by decide, ?_⟩
  exact (extractDecisions_smart_quote_normalization asciiReply smartReply
    [holdGoodDecision] (by decide) (by decide)).2

/-! ## Theorems about chain-of-thought extraction and bracket scanning -/

/-- Helper: bracket balance of a cons. -/
theorem bracketBalance_cons (c : Char) (l : List Char) :
    bracketBalance (c :: l) = bracketDelta c + bracketBalance l := by
  simp [bracketBalance]

/-- Helper: the scanning loop finds no close bracket exactly when the
running depth, decremented at a `]`, never reaches zero there. -/
theorem bracketLoop_eq_none_iff (l : List Char) (d : Int) (i : Nat) :
    bracketLoop l d i = none ↔
      ∀ n, n < l.length →
        ¬ (l.get? n = some ']' ∧ d + bracketBalance (l.take (n + 1)) = 0) := by
  induction l generalizing d i with
  | nil => simp [bracketLoop]
  | cons c rest ih =>
    unfold bracketLoop
    by_cases hbr : c = '['
    · subst hbr
      rw [if_pos rfl, ih (d + 1) (i + 1)]
      constructor
      · intro h n hn
        cases n with
        | zero =>
          rintro ⟨hc, _⟩
          simp at hc
        | succ m =>
          rintro ⟨hc, hbal⟩
          refine h m (by simpa using hn) ⟨by simpa using hc, ?_⟩
          rw [List.take_succ_cons, bracketBalance_cons] at hbal
          simp [bracketDelta] at hbal
          omega
      · intro h m hm
        rintro ⟨hc, hbal⟩
        refine h (m + 1) (by simpa using hm) ⟨by simpa using hc, ?_⟩
        rw [List.take_succ_cons, bracketBalance_cons]
        simp [bracketDelta]
        omega
    · rw [if_neg hbr]
      by_cases hcl : c = ']'
      · subst hcl
        rw [if_pos rfl]
        by_cases hd : d - 1 = 0
        · rw [if_pos hd]
          constructor
          · intro h
            exact absurd h (by simp)
          · intro h
            exfalso
            apply h 0 (by simp)
            refine ⟨rfl, ?_⟩
            simp [bracketBalance, bracketDelta]
            omega
        · rw [if_neg hd, ih (d - 1) (i + 1)]
          constructor
          · intro h n hn
            cases n with
            | zero =>
              rintro ⟨_, hbal⟩
              simp [bracketBalance, bracketDelta] at hbal
              omega
            | succ m =>
              rintro ⟨hc, hbal⟩
              refine h m (by simpa using hn) ⟨by simpa using hc, ?_⟩
              rw [List.take_succ_cons, bracketBalance_cons] at hbal
              simp [bracketDelta] at hbal
              omega
          · intro h m hm
            rintro ⟨hc, hbal⟩
            apply h (m + 1) (by simpa using hm)
            refine ⟨by simpa using hc, ?_⟩
            rw [List.take_succ_cons, bracketBalance_cons]
            simp [bracketDelta]
            omega
      · rw [if_neg hcl, ih d (i + 1)]
        constructor
        · intro h n hn
          cases n with
          | zero =>
            rintro ⟨hc, _⟩
            exact hcl (by simpa using hc)
          | succ m =>
            rintro ⟨hc, hbal⟩
            refine h m (by simpa using hn) ⟨by simpa using hc, ?_⟩
            rw [List.take_succ_cons, bracketBalance_cons] at hbal
            simp [bracketDelta, hbr, hcl] at hbal
            omega
        · intro h m hm
          rintro ⟨hc, hbal⟩
          apply h (m + 1) (by simpa using hm)
          refine ⟨by simpa using hc, ?_⟩
          rw [List.take_succ_cons, bracketBalance_cons]
          simp [bracketDelta, hbr, hcl]
          omega

/-- C1 (amended): the chain-of-thought is the trimmed text before the first
`[` only when that `[` sits at a strictly positive position; when the `[` is
at position 0 — or absent — the whole trimmed response is the
chain-of-thought.  Extraction fails with the no-array error exactly when no
`[` exists, and with the unterminated-array error exactly when the bracket
depth tracked from the first `[` never returns to zero at a `]`. -/
theorem decisionParsing_cot_and_brackets (r : List Char) :
    (∀ i, indexOfChar r '[' = some i → 0 < i →
      extractCoTTrace r = trimSpace (r.take i)) ∧
    (indexOfChar r '[' = some 0 → extractCoTTrace r = trimSpace r) ∧
    (indexOfChar r '[' = none → extractCoTTrace r = trimSpace r) ∧
    (extractDecisions r = .error .noArrayStart ↔ indexOfChar r '[' = none) ∧
    (∀ i, indexOfChar r '[' = some i →
      (extractDecisions r = .error .noArrayEnd ↔
        ∀ n, n < (r.drop i).length →
          ¬ ((r.drop i).get? n = some ']' ∧
            bracketBalance ((r.drop i).take (n + 1)) = 0))) := by
  refine ⟨?_, ?_, ?_, ?_, ?_⟩
  · intro i hi hpos
    unfold extractCoTTrace
    rw [hi]
    dsimp only
    rw [if_pos hpos]
  · intro hi
    unfold extractCoTTrace
    rw [hi]
    dsimp only
    rw [if_neg (by omega)]
  · intro hi
    unfold extractCoTTrace
    rw [hi]
  · constructor
    · intro h
      cases hidx : indexOfChar r '[' with
      | none => rfl
      | some i =>
        unfold extractDecisions at h
        rw [hidx] at h
        dsimp only at h
        cases hf : findMatchingBracket r i with
        | none =>
          rw [hf] at h
          exact absurd h (by simp)
        | some j =>
          rw [hf] at h
          dsimp only at h
          cases hj : jsonUnmarshalDecisions
              (fixMissingQuotes (trimSpace ((r.drop i).take (j + 1 - i)))) with
          | none =>
            rw [hj] at h
            exact absurd h (by simp)
          | some ds =>
            rw [hj] at h
            exact absurd h (by simp)
    · intro h
      unfold extractDecisions
      rw [h]
  · intro i hi
    have hget : r.get? i = some '[' := indexOfChar_get r '[' i hi
    have hiff : findMatchingBracket r i = none ↔
        ∀ n, n < (r.drop i).length →
          ¬ ((r.drop i).get? n = some ']' ∧
            bracketBalance ((r.drop i).take (n + 1)) = 0) := by
      unfold findMatchingBracket
      rw [if_pos hget, bracketLoop_eq_none_iff]
      simp only [zero_add]
    unfold extractDecisions
    rw [hi]
    dsimp only
    cases hf : findMatchingBracket r i with
    | none =>
      exact iff_of_true rfl (hiff.mp hf)
    | some j =>
      dsimp only
      refine iff_of_false ?_ (fun hall => by rw [hiff.mpr hall] at hf; cases hf)
      intro hcontra
      cases hj : jsonUnmarshalDecisions
          (fixMissingQuotes (trimSpace ((r.drop i).take (j + 1 - i)))) with
      | none =>
        rw [hj] at hcontra
        simp at hcontra
      | some ds =>
        rw [hj] at hcontra
        simp at hcontra

/-- C1 counterexample: a reply beginning with `[` at index 0 — where the
claim says the chain-of-thought is empty — gets the entire response as its
chain-of-thought. -/
theorem extractCoTTrace_index_zero_counterexample :
    indexOfChar (("[1]").toList) '[' = some 0 ∧
    extractCoTTrace (("[1]").toList) = ("[1]").toList ∧
    ("[1]").toList ≠ ([] : List Char) := by
  exact ⟨by decide, by decide, by decide⟩

/-- Witness for `decisionParsing_cot_and_brackets` on the spec's own
examples: `"blah [1,2] trailing"` has its chain-of-thought before the
bracket, and an unterminated `"x [1,2"` fails with the unterminated-array
error. -/
theorem decisionParsing_cot_and_brackets_witness :
    extractCoTTrace (("blah [1,2] trailing").toList) =
      trimSpace ((("blah [1,2] trailing").toList).take 5) ∧
    (extractDecisions (("x [1,2").toList) = .error .noArrayEnd ↔
      ∀ n, n < ((("x [1,2").toList).drop 2).length →
        ¬ (((("x [1,2").toList).drop 2).get? n = some ']' ∧
          bracketBalance (((("x [1,2").toList).drop 2).take (n + 1)) = 0)) :=
  ⟨(decisionParsing_cot_and_brackets (("blah [1,2] trailing").toList)).1 5
      (by decide) (by decide),
    (decisionParsing_cot_and_brackets (("x [1,2").toList)).2.2.2.2 2 (by decide)⟩
